import Mathlib

/-!
Shallow embedding of the frame-accumulation core of the mirac5reduce
pipeline (src/mirac5reduce/utils/calcframes.py, utils/memory_saver.py,
cal/flatfield.py, src/utils/statfunc.py).

Modelling conventions:
* a floating-point pixel value is a `Val := Option ℚ`, with `none`
  standing for the NaN sentinel (the claims under study concern NaN
  propagation and exact weighted-mean identities, not rounding);
* a 2D frame is a function `Frame := ℕ → Val` from flattened pixel
  index to value (all per-pixel operations of the source are
  elementwise); where the source needs the frame extent (the per-frame
  median over all pixels of `flatfield.py`) the pixel count `npix` is
  passed explicitly;
* Python exceptions (IndexError on `filenames[j]`, ZeroDivisionError on
  `ceil(totframes/0)`, the broadcast ValueError of numpy, NameError,
  TypeError on `float(None)`) are modelled by an `Option` result at the
  level at which the source function would propagate the exception.
-/

namespace Mirac5

/-- A pixel value: `none` models the floating-point NaN sentinel. -/
abbrev Val : Type := Option ℚ

/-- A 2D frame, as a function from flattened pixel index to value. -/
abbrev Frame : Type := ℕ → Val

/-- NaN-propagating addition (`x + NaN = NaN`). -/
def addV (a b : Val) : Val :=
  match a, b with
  | some x, some y => some (x + y)
  | _, _ => none

/-- NaN-propagating subtraction. -/
def subV (a b : Val) : Val :=
  match a, b with
  | some x, some y => some (x - y)
  | _, _ => none

/-- NaN-propagating division by a scalar value.  A zero divisor yields
`none`: the non-finite quotient numpy would produce (inf or NaN) has no
image in ℚ, and no claim under study evaluates a finite quotient there. -/
def divV (a b : Val) : Val :=
  match a, b with
  | some x, some y => if y = 0 then none else some (x / y)
  | _, _ => none

/-- The all-zeros frame (`np.zeros(frame_shape)`). -/
def zerosF : Frame := fun _ => some 0

/-- Elementwise frame addition (`avgframe += ...`). -/
def addF (a b : Frame) : Frame := fun p => addV (a p) (b p)

/-- Scalar-times-frame (`chunkweights[i] * mean_chunk`); scales every
finite pixel and keeps NaN pixels NaN. -/
def smulF (w : ℚ) (f : Frame) : Frame := fun p => (f p).map (fun x => w * x)

/-- Frame-times-scalar on the right (`fits.getdata(...) * framesigns[j]`). -/
def smulR (f : Frame) (s : ℚ) : Frame := fun p => (f p).map (fun x => x * s)

/-- Elementwise frame subtraction (`chunk_frames - dark_array`). -/
def subF (a b : Frame) : Frame := fun p => subV (a p) (b p)

/-- `np.nanmean` over a list of values: the arithmetic mean of the
non-NaN entries, NaN when there is no non-NaN entry. -/
def nanMeanL (vs : List Val) : Val :=
  let fin := vs.filterMap id
  if fin.length = 0 then none else some (fin.sum / (fin.length : ℚ))

/-- `np.nanmean(chunk_frames, axis=0)`: elementwise NaN-aware mean over
a list of frames. -/
def nanMeanFrames (chunk : List Frame) : Frame :=
  fun p => nanMeanL (chunk.map (fun f => f p))

/-- `math.ceil(tot / m)` for natural `tot`, `m` with `m ≥ 1`. -/
def pyCeilDiv (tot m : ℕ) : ℕ := (tot + m - 1) / m

/-- The per-chunk frame counts computed by the source
(`nframes = [maxframes]*nchunks; if tot % maxframes != 0:
nframes[-1] = tot % maxframes`). -/
def chunkSizes (tot m : ℕ) : List ℕ :=
  let n := pyCeilDiv tot m
  let base := List.replicate n m
  if tot % m ≠ 0 then base.dropLast ++ [tot % m] else base

/-- The per-chunk weights (`chunkweights = nframes / totframes`). -/
def chunkWeights (tot m : ℕ) : List ℚ :=
  (chunkSizes tot m).map (fun (sz : ℕ) => (sz : ℚ) / (tot : ℚ))

/-- Sequentially load frames at the given positions
(`chunk_frames.append(...)` loop); the first failing load aborts the
whole list, as the propagating exception does. -/
def loadList (load : ℕ → Option Frame) : List ℕ → Option (List Frame)
  | [] => some []
  | j :: rest =>
    match load j, loadList load rest with
    | some f, some fs => some (f :: fs)
    | _, _ => none

/-- Load the frames of one chunk through a fallible frame loader
(`fits.getdata(filenames[j], extlist[j])` for `j` in
`range(file_idx_str, file_idx_end)`). -/
def chunkLoadE (load : ℕ → Option Frame) (start sz : ℕ) : Option (List Frame) :=
  loadList load (List.range' start sz)

/-- The chunk loop shared by `calc_mean_frame`, `lm_mean_frame`,
`calc_chopnod_frame` and `create_flatfield`: for each chunk index `i`
with size `sz`, load the frames at positions
`[i * loopframes, i * loopframes + sz)`, reduce them with the NaN-aware
mean, and add the weighted chunk mean into the running frame. -/
def chunkLoopE (load : ℕ → Option Frame) (wOf : ℕ → ℚ) (loopframes : ℕ) :
    List ℕ → ℕ → Frame → Option Frame
  | [], _, avg => some avg
  | sz :: rest, i, avg =>
    match chunkLoadE load (i * loopframes) sz with
    | none => none
    | some chunk =>
      chunkLoopE load wOf loopframes rest (i + 1)
        (addF avg (smulF (wOf sz) (nanMeanFrames chunk)))

/-- The weighted chunked accumulation over `tot` frames reached through
`load`, with memory ceiling `m` (`none` = unbounded single chunk) and
chunk weight `wOf sz`.  Returns `none` when the source code would raise:
an empty sequence (`filenames[0]` IndexError), a zero ceiling
(`ceil(tot/0)` ZeroDivisionError), or any failing frame load. -/
def accumFrames (load : ℕ → Option Frame) (tot : ℕ) (m : Option ℕ)
    (wOf : ℕ → ℚ) : Option Frame :=
  if tot = 0 then none
  else
    match m with
    | some mm =>
      if mm = 0 then none
      else chunkLoopE load wOf mm (chunkSizes tot mm) 0 zerosF
    | none => chunkLoopE load wOf 0 [tot] 0 zerosF

/-- `calc_mean_frame` over an abstract frame loader (the body of
`calcframes.calc_mean_frame` after the frame locators are resolved;
`lm_mean_frame` of memory_saver.py is the same loop). -/
def calc_mean_frame_load (load : ℕ → Option Frame) (tot : ℕ) (m : Option ℕ) :
    Option Frame :=
  accumFrames load tot m (fun sz => (sz : ℚ) / (tot : ℚ))

/-- `calc_mean_frame` on a resolved in-memory frame sequence: the loader
reads the `j`-th element of the list (out-of-range access is the
IndexError of `filenames[j]`). -/
def calc_mean_frame (frames : List Frame) (m : Option ℕ) : Option Frame :=
  calc_mean_frame_load (fun j => frames.get? j) frames.length m

end Mirac5

namespace Mirac5

/-! ### Structure of the chunk partition -/

theorem pyCeilDiv_zero (m : ℕ) : pyCeilDiv 0 m = 0 := by
  rcases Nat.eq_zero_or_pos m with h | h
  · subst h; rfl
  · unfold pyCeilDiv
    exact Nat.div_eq_of_lt (by omega)

theorem pyCeilDiv_eq_one {tot m : ℕ} (h1 : 1 ≤ tot) (h2 : tot ≤ m) :
    pyCeilDiv tot m = 1 := by
  unfold pyCeilDiv
  have hm : 1 ≤ m := le_trans h1 h2
  exact Nat.div_eq_of_lt_le (by omega) (by omega)

theorem pyCeilDiv_pos {tot m : ℕ} (hm : 1 ≤ m) (ht : 1 ≤ tot) :
    1 ≤ pyCeilDiv tot m := by
  unfold pyCeilDiv
  rw [Nat.le_div_iff_mul_le hm]
  omega

theorem pyCeilDiv_step {tot m : ℕ} (hm : 1 ≤ m) (h : m < tot) :
    pyCeilDiv tot m = pyCeilDiv (tot - m) m + 1 := by
  unfold pyCeilDiv
  have he : tot + m - 1 = ((tot - m) + m - 1) + m := by omega
  rw [he, Nat.add_div_right _ hm]

theorem chunkSizes_zero (m : ℕ) : chunkSizes 0 m = [] := by
  unfold chunkSizes
  rw [pyCeilDiv_zero]
  simp

theorem chunkSizes_base {tot m : ℕ} (h1 : 1 ≤ tot) (h2 : tot ≤ m) :
    chunkSizes tot m = [tot] := by
  unfold chunkSizes
  rw [pyCeilDiv_eq_one h1 h2]
  rcases eq_or_lt_of_le h2 with he | hlt
  · subst he
    simp [Nat.mod_self]
  · rw [Nat.mod_eq_of_lt hlt]
    have hne : tot ≠ 0 := by omega
    simp [hne]

theorem chunkSizes_step {tot m : ℕ} (hm : 1 ≤ m) (h : m < tot) :
    chunkSizes tot m = m :: chunkSizes (tot - m) m := by
  unfold chunkSizes
  rw [pyCeilDiv_step hm h]
  have hmod : tot % m = (tot - m) % m := Nat.mod_eq_sub_mod (le_of_lt h)
  have hpos : 1 ≤ pyCeilDiv (tot - m) m := pyCeilDiv_pos hm (by omega)
  rw [hmod]
  by_cases hz : (tot - m) % m = 0
  · simp [hz, List.replicate_succ]
  · simp only [hz, ne_eq, not_false_eq_true, if_true]
    obtain ⟨k, hk⟩ : ∃ k, pyCeilDiv (tot - m) m = k + 1 :=
      ⟨pyCeilDiv (tot - m) m - 1, by omega⟩
    rw [hk]
    simp [List.replicate_succ, List.dropLast_cons_of_ne_nil]

theorem chunkSizes_sum {m : ℕ} (hm : 1 ≤ m) :
    ∀ tot, (chunkSizes tot m).sum = tot := by
  intro tot
  induction tot using Nat.strong_induction_on with
  | _ tot ih =>
    rcases Nat.eq_zero_or_pos tot with h0 | h1
    · subst h0; rw [chunkSizes_zero]; rfl
    · rcases le_or_lt tot m with hle | hlt
      · rw [chunkSizes_base h1 hle]; simp
      · rw [chunkSizes_step hm hlt]
        simp only [List.sum_cons, ih (tot - m) (by omega)]
        omega

theorem chunkSizes_mem {m : ℕ} (hm : 1 ≤ m) :
    ∀ tot, ∀ sz ∈ chunkSizes tot m, 1 ≤ sz ∧ sz ≤ m := by
  intro tot
  induction tot using Nat.strong_induction_on with
  | _ tot ih =>
    rcases Nat.eq_zero_or_pos tot with h0 | h1
    · subst h0; rw [chunkSizes_zero]; intro sz h; cases h
    · rcases le_or_lt tot m with hle | hlt
      · rw [chunkSizes_base h1 hle]
        intro sz h
        rcases List.mem_singleton.mp h with rfl
        exact ⟨h1, hle⟩
      · rw [chunkSizes_step hm hlt]
        intro sz h
        rcases List.mem_cons.mp h with he | h2
        · exact ⟨by omega, by omega⟩
        · exact ih (tot - m) (by omega) sz h2

theorem chunkSizes_length {m : ℕ} (hm : 1 ≤ m) :
    ∀ tot, (chunkSizes tot m).length = pyCeilDiv tot m := by
  intro tot
  induction tot using Nat.strong_induction_on with
  | _ tot ih =>
    rcases Nat.eq_zero_or_pos tot with h0 | h1
    · subst h0; rw [chunkSizes_zero, pyCeilDiv_zero]; rfl
    · rcases le_or_lt tot m with hle | hlt
      · rw [chunkSizes_base h1 hle, pyCeilDiv_eq_one h1 hle]; rfl
      · rw [chunkSizes_step hm hlt, pyCeilDiv_step hm hlt]
        simp [ih (tot - m) (by omega)]

theorem chunkSizes_ne_nil {tot m : ℕ} (hm : 1 ≤ m) (ht : 1 ≤ tot) :
    chunkSizes tot m ≠ [] := by
  have h := chunkSizes_length hm tot
  have hp := pyCeilDiv_pos hm ht
  intro hnil
  rw [hnil] at h
  simp at h
  omega

theorem chunkSizes_getD {m : ℕ} (hm : 1 ≤ m) :
    ∀ tot i, i + 1 < (chunkSizes tot m).length →
      (chunkSizes tot m).getD i 0 = m := by
  intro tot
  induction tot using Nat.strong_induction_on with
  | _ tot ih =>
    rcases Nat.eq_zero_or_pos tot with h0 | h1
    · subst h0; rw [chunkSizes_zero]; intro i h; simp at h
    · rcases le_or_lt tot m with hle | hlt
      · rw [chunkSizes_base h1 hle]; intro i h; simp at h
      · rw [chunkSizes_step hm hlt]
        intro i h
        cases i with
        | zero => rfl
        | succ j =>
          simp only [List.length_cons] at h
          exact ih (tot - m) (by omega) j (by omega)

theorem chunkSizes_getLast? {m : ℕ} (hm : 1 ≤ m) :
    ∀ tot, 1 ≤ tot →
      (chunkSizes tot m).getLast? =
        some (if tot % m = 0 then m else tot % m) := by
  intro tot
  induction tot using Nat.strong_induction_on with
  | _ tot ih =>
    intro h1
    rcases le_or_lt tot m with hle | hlt
    · rw [chunkSizes_base h1 hle]
      rcases eq_or_lt_of_le hle with he | hlt2
      · subst he; simp [Nat.mod_self]
      · rw [Nat.mod_eq_of_lt hlt2]
        have hne : tot ≠ 0 := by omega
        simp [hne]
    · rw [chunkSizes_step hm hlt]
      have hne : chunkSizes (tot - m) m ≠ [] :=
        chunkSizes_ne_nil hm (by omega)
      obtain ⟨b, l, hb⟩ : ∃ b l, chunkSizes (tot - m) m = b :: l := by
        cases hcs : chunkSizes (tot - m) m with
        | nil => exact absurd hcs hne
        | cons b l => exact ⟨b, l, rfl⟩
      rw [hb, List.getLast?_cons_cons, ← hb, ih (tot - m) (by omega) (by omega),
        Nat.mod_eq_sub_mod (le_of_lt hlt)]

theorem chunkSizes_take_sum {m : ℕ} (hm : 1 ≤ m) :
    ∀ tot i, i < (chunkSizes tot m).length →
      ((chunkSizes tot m).take i).sum = i * m := by
  intro tot
  induction tot using Nat.strong_induction_on with
  | _ tot ih =>
    rcases Nat.eq_zero_or_pos tot with h0 | h1
    · subst h0; rw [chunkSizes_zero]; intro i h; simp at h
    · rcases le_or_lt tot m with hle | hlt
      · rw [chunkSizes_base h1 hle]
        intro i h
        simp at h
        subst h
        simp
      · rw [chunkSizes_step hm hlt]
        intro i h
        cases i with
        | zero => simp
        | succ j =>
          simp only [List.length_cons] at h
          simp only [List.take_succ_cons, List.sum_cons,
            ih (tot - m) (by omega) j (by omega)]
          ring

theorem pyCeilDiv_spec {tot m : ℕ} (hm : 1 ≤ m) (ht : 1 ≤ tot) :
    tot ≤ pyCeilDiv tot m * m ∧ (pyCeilDiv tot m - 1) * m < tot := by
  have hdm := Nat.div_add_mod (tot + m - 1) m
  have hlt : (tot + m - 1) % m < m := Nat.mod_lt _ hm
  unfold pyCeilDiv
  constructor
  · have h := Nat.div_mul_le_self (tot + m - 1) m
    rw [mul_comm] at hdm
    omega
  · have hq : 1 ≤ (tot + m - 1) / m := pyCeilDiv_pos hm ht
    rw [Nat.sub_mul, one_mul]
    rw [mul_comm] at hdm
    omega

/-! ### Loading lemmas -/

theorem chunkLoadE_get? (l : List Frame) :
    ∀ sz start, start + sz ≤ l.length →
      chunkLoadE (fun j => l.get? j) start sz = some ((l.drop start).take sz) := by
  intro sz
  induction sz with
  | zero => intro start h; rfl
  | succ n ihn =>
    intro start h
    have hlt : start < l.length := by omega
    unfold chunkLoadE at *
    rw [List.range'_succ]
    show loadList (fun j => l.get? j) (start :: List.range' (start + 1) n) = _
    unfold loadList
    rw [List.get?_eq_get hlt, ihn (start + 1) (by omega)]
    have hd : l.drop start = l.get ⟨start, hlt⟩ :: l.drop (start + 1) :=
      List.drop_eq_get_cons hlt
    rw [hd, List.take_succ_cons]

theorem loadList_mem_none (load : ℕ → Option Frame) (j : ℕ)
    (hload : load j = none) :
    ∀ l : List ℕ, j ∈ l → loadList load l = none := by
  intro l
  induction l with
  | nil => intro h; cases h
  | cons a rest ihr =>
    intro h
    unfold loadList
    rcases List.mem_cons.mp h with he | hmem
    · subst he; rw [hload]
    · rw [ihr hmem]
      cases load a <;> rfl

theorem chunkLoadE_shift (load : ℕ → Option Frame) (m : ℕ) :
    ∀ sz start, chunkLoadE load (start + m) sz =
      chunkLoadE (fun j => load (j + m)) start sz := by
  intro sz
  induction sz with
  | zero => intro start; rfl
  | succ n ihn =>
    intro start
    unfold chunkLoadE at *
    rw [List.range'_succ, List.range'_succ]
    unfold loadList
    have he : start + m + 1 = (start + 1) + m := by omega
    rw [he, ihn (start + 1)]

theorem chunkLoopE_shift (load : ℕ → Option Frame) (w : ℕ → ℚ) (m : ℕ) :
    ∀ sizes i avg, chunkLoopE load w m sizes (i + 1) avg =
      chunkLoopE (fun j => load (j + m)) w m sizes i avg := by
  intro sizes
  induction sizes with
  | nil => intro i avg; rfl
  | cons sz rest ihr =>
    intro i avg
    simp only [chunkLoopE]
    have he : (i + 1) * m = i * m + m := by ring
    rw [he, chunkLoadE_shift load m sz (i * m)]
    cases chunkLoadE (fun j => load (j + m)) (i * m) sz with
    | none => rfl
    | some chunk => exact ihr (i + 1) _

/-! ### Frame algebra -/

theorem addF_zerosF (f : Frame) : addF zerosF f = f := by
  funext p
  cases h : f p with
  | none => simp [addF, addV, zerosF, h]
  | some x => simp [addF, addV, zerosF, h]

theorem smulF_one (f : Frame) : smulF 1 f = f := by
  funext p
  cases h : f p with
  | none => simp [smulF, h]
  | some x => simp [smulF, h]

theorem nanMeanL_map_some (xs : List ℚ) :
    nanMeanL (xs.map some) =
      if xs.length = 0 then none else some (xs.sum / (xs.length : ℚ)) := by
  unfold nanMeanL
  have h : (xs.map some).filterMap id = xs := by
    induction xs with
    | nil => rfl
    | cons a rest ihr => simp [ihr]
  rw [h]

theorem map_eval_eq_map_some {l : List Frame}
    (hfin : ∀ g ∈ l, ∀ p, (g p).isSome) (p : ℕ) :
    l.map (fun f => f p) = (l.map (fun f => (f p).getD 0)).map some := by
  induction l with
  | nil => rfl
  | cons f rest ihr =>
    have hf : f p = some ((f p).getD 0) := by
      cases hc : f p with
      | none =>
        have := hfin f (List.mem_cons_self f rest) p
        rw [hc] at this
        cases this
      | some x => rfl
    simp only [List.map_cons]
    rw [ihr (fun g hg q => hfin g (List.mem_cons_of_mem f hg) q), ← hf]

theorem nanMeanFrames_fin {l : List Frame}
    (hfin : ∀ g ∈ l, ∀ p, (g p).isSome) (hne : l ≠ []) (p : ℕ) :
    nanMeanFrames l p =
      some ((l.map (fun f => (f p).getD 0)).sum / (l.length : ℚ)) := by
  unfold nanMeanFrames
  rw [map_eval_eq_map_some hfin p, nanMeanL_map_some]
  have hlen : (l.map (fun f => (f p).getD 0)).length = l.length :=
    List.length_map _ _
  rw [hlen]
  have : l.length ≠ 0 := fun h => hne (List.length_eq_zero.mp h)
  simp [this]

theorem wsum_arith (T a s1 s2 x y : ℚ) (hx : x ≠ 0) (hy : y ≠ 0)
    (hxy : x + y ≠ 0) :
    a + (x / T) * (s1 / x) + (y / T) * (s2 / y) =
      a + ((x + y) / T) * ((s1 + s2) / (x + y)) := by
  have e1 : (x / T) * (s1 / x) = s1 / T := by
    rw [div_mul_div_comm, mul_comm x s1, mul_div_mul_right _ _ hx]
  have e2 : (y / T) * (s2 / y) = s2 / T := by
    rw [div_mul_div_comm, mul_comm y s2, mul_div_mul_right _ _ hy]
  have e3 : ((x + y) / T) * ((s1 + s2) / (x + y)) = (s1 + s2) / T := by
    rw [div_mul_div_comm, mul_comm (x + y) (s1 + s2),
      mul_div_mul_right _ _ hxy]
  rw [e1, e2, e3, add_assoc, div_add_div_same]

/-! ### The chunked accumulation equals the one-pass NaN-aware mean on
NaN-free sequences -/

theorem chunkLoop_fin (T : ℚ) {m : ℕ} (hm : 1 ≤ m) :
    ∀ tot (l : List Frame), l.length = tot → 1 ≤ tot →
      (∀ g ∈ l, ∀ p, (g p).isSome) → ∀ acc,
      chunkLoopE (fun j => l.get? j) (fun sz => (sz : ℚ) / T) m
          (chunkSizes tot m) 0 acc =
        some (addF acc (smulF ((tot : ℚ) / T) (nanMeanFrames l))) := by
  intro tot
  induction tot using Nat.strong_induction_on with
  | _ tot ih =>
    intro l hl h1 hfin acc
    rcases le_or_lt tot m with hle | hlt
    · rw [chunkSizes_base h1 hle]
      have hload : chunkLoadE (fun j => l.get? j) (0 * m) tot = some l := by
        rw [Nat.zero_mul, chunkLoadE_get? l tot 0 (by omega)]
        simp [← hl]
      simp only [chunkLoopE, hload]
    · rw [chunkSizes_step hm hlt]
      have hmle : m ≤ l.length := by omega
      have hload : chunkLoadE (fun j => l.get? j) (0 * m) m = some (l.take m) := by
        rw [Nat.zero_mul, chunkLoadE_get? l m 0 (by omega)]
        simp
      simp only [chunkLoopE, hload]
      have hshift := chunkLoopE_shift (fun j => l.get? j)
        (fun sz => (sz : ℚ) / T) m (chunkSizes (tot - m) m) 0
        (addF acc (smulF ((m : ℚ) / T) (nanMeanFrames (l.take m))))
      rw [Nat.zero_add] at hshift
      rw [hshift]
      have hdropload : (fun j => l.get? (j + m)) = (fun j => (l.drop m).get? j) := by
        funext j
        rw [List.get?_drop, Nat.add_comm]
      rw [hdropload]
      have hdl : (l.drop m).length = tot - m := by
        rw [List.length_drop, hl]
      have hdfin : ∀ g ∈ l.drop m, ∀ p, (g p).isSome :=
        fun g hg p => hfin g (List.drop_subset m l hg) p
      rw [ih (tot - m) (by omega) (l.drop m) hdl (by omega) hdfin _]
      congr 1
      funext p
      have htfin : ∀ g ∈ l.take m, ∀ p, (g p).isSome :=
        fun g hg q => hfin g (List.take_subset m l hg) q
      have htl : (l.take m).length = m := by
        rw [List.length_take]
        omega
      have htne : l.take m ≠ [] := List.length_pos.mp (by rw [htl]; omega)
      have hdne : l.drop m ≠ [] := List.length_pos.mp (by rw [hdl]; omega)
      have hlne : l ≠ [] := List.length_pos.mp (by rw [hl]; omega)
      rw [show addF (addF acc (smulF ((m : ℚ) / T) (nanMeanFrames (l.take m))))
          (smulF ((↑(tot - m) : ℚ) / T) (nanMeanFrames (l.drop m))) p =
          addV (addV (acc p)
            ((smulF ((m : ℚ) / T) (nanMeanFrames (l.take m))) p))
            ((smulF ((↑(tot - m) : ℚ) / T) (nanMeanFrames (l.drop m))) p)
        from rfl]
      rw [show addF acc (smulF ((tot : ℚ) / T) (nanMeanFrames l)) p =
          addV (acc p) ((smulF ((tot : ℚ) / T) (nanMeanFrames l)) p) from rfl]
      rw [show (smulF ((m : ℚ) / T) (nanMeanFrames (l.take m))) p =
          (nanMeanFrames (l.take m) p).map (fun x => ((m : ℚ) / T) * x) from rfl]
      rw [show (smulF ((↑(tot - m) : ℚ) / T) (nanMeanFrames (l.drop m))) p =
          (nanMeanFrames (l.drop m) p).map
            (fun x => ((↑(tot - m) : ℚ) / T) * x) from rfl]
      rw [show (smulF ((tot : ℚ) / T) (nanMeanFrames l)) p =
          (nanMeanFrames l p).map (fun x => ((tot : ℚ) / T) * x) from rfl]
      rw [nanMeanFrames_fin htfin htne p, nanMeanFrames_fin hdfin hdne p,
        nanMeanFrames_fin hfin hlne p]
      rw [htl, hdl, hl]
      cases acc p with
      | none => rfl
      | some a =>
        show some (a + ((m : ℚ) / T) * _ + (((↑(tot - m) : ℚ)) / T) * _) =
          some (a + ((tot : ℚ) / T) * _)
        congr 1
        rw [List.map_take, List.map_drop]
        have hx : ((m : ℚ)) ≠ 0 := Nat.cast_ne_zero.mpr (by omega)
        have hy : ((↑(tot - m) : ℚ)) ≠ 0 := Nat.cast_ne_zero.mpr (by omega)
        have hcast : ((m : ℚ)) + ((↑(tot - m) : ℚ)) = ((tot : ℚ)) := by
          rw [Nat.cast_sub (le_of_lt hlt)]
          ring
        have hxy : ((m : ℚ)) + ((↑(tot - m) : ℚ)) ≠ 0 := by
          rw [hcast]
          exact Nat.cast_ne_zero.mpr (by omega)
        have hsum : ((l.map (fun f => (f p).getD 0)).take m).sum +
            ((l.map (fun f => (f p).getD 0)).drop m).sum =
            (l.map (fun f => (f p).getD 0)).sum :=
          List.sum_take_add_sum_drop _ m
        rw [wsum_arith T a _ _ _ _ hx hy hxy, hcast, hsum]

theorem calc_mean_frame_fin (frames : List Frame) (m : Option ℕ)
    (hne : frames ≠ []) (hfin : ∀ g ∈ frames, ∀ p, (g p).isSome)
    (hm : m = none ∨ ∃ mm, m = some mm ∧ 1 ≤ mm) :
    calc_mean_frame frames m = some (nanMeanFrames frames) := by
  have htot : 1 ≤ frames.length := List.length_pos.mpr hne
  have htotq : ((frames.length : ℚ)) ≠ 0 := Nat.cast_ne_zero.mpr (by omega)
  unfold calc_mean_frame calc_mean_frame_load accumFrames
  have h0 : ¬ (frames.length = 0) := by omega
  rw [if_neg h0]
  rcases hm with rfl | ⟨mm, rfl, hmm⟩
  · have hload : chunkLoadE (fun j => frames.get? j) (0 * 0) frames.length =
        some frames := by
      rw [Nat.zero_mul, chunkLoadE_get? frames frames.length 0 (by omega)]
      simp
    simp only [chunkLoopE, hload]
    rw [div_self htotq, smulF_one, addF_zerosF]
  · dsimp only
    rw [if_neg (by omega : ¬ (mm = 0))]
    rw [chunkLoop_fin ((frames.length : ℚ)) (by omega) frames.length frames rfl
      (by omega) hfin zerosF]
    rw [div_self htotq, smulF_one, addF_zerosF]

/-- C1 (counterexample): as stated, the claim is false on the code — when a
frame contains NaN at a pixel, `calc_mean_frame` with ceiling 2 and with
ceiling `None` give different results on the same 4-frame sequence,
because the NaN-aware per-chunk mean changes the effective sample count
per pixel across chunk boundaries. -/
theorem claim_C1_counterexample :
    calc_mean_frame
        [(fun _ => none), (fun _ => some 2), (fun _ => some 4), (fun _ => some 4)]
        (some 2) ≠
      calc_mean_frame
        [(fun _ => none), (fun _ => some 2), (fun _ => some 4), (fun _ => some 4)]
        none := by
  intro h
  have h0 := congrArg (Option.map (fun f => f 0)) h
  have e1 : (Option.map (fun f => f 0) (calc_mean_frame
      [(fun _ => none), (fun _ => some 2), (fun _ => some 4), (fun _ => some 4)]
      (some 2))) = some (some 3) := by
    norm_num [calc_mean_frame, calc_mean_frame_load, accumFrames, chunkSizes,
      pyCeilDiv, chunkLoopE, chunkLoadE, loadList, List.range', nanMeanFrames,
      nanMeanL, addF, addV, smulF, zerosF, List.filterMap_cons,
      List.filterMap_nil, id_eq, Option.map_some', Option.map_none']
  have e2 : (Option.map (fun f => f 0) (calc_mean_frame
      [(fun _ => none), (fun _ => some 2), (fun _ => some 4), (fun _ => some 4)]
      none)) = some (some (10 / 3)) := by
    norm_num [calc_mean_frame, calc_mean_frame_load, accumFrames, chunkSizes,
      pyCeilDiv, chunkLoopE, chunkLoadE, loadList, List.range', nanMeanFrames,
      nanMeanL, addF, addV, smulF, zerosF, List.filterMap_cons,
      List.filterMap_nil, id_eq, Option.map_some', Option.map_none']
  rw [e1, e2] at h0
  have h3 : (3 : ℚ) = 10 / 3 := by simpa using h0
  norm_num at h3

/-- C1 (amended): for every NaN-free nonempty frame sequence and every
valid memory ceiling (a positive bound or `None`), `calc_mean_frame`
returns exactly the elementwise NaN-aware arithmetic mean over all
frames; in particular any two valid ceilings give equal results.  (The
original claim extended this to sequences with NaN pixels, which the
code refutes: see the counterexample.) -/
theorem claim_C1_amended (frames : List Frame) (m1 m2 : Option ℕ)
    (hne : frames ≠ []) (hfin : ∀ g ∈ frames, ∀ p, (g p).isSome)
    (h1 : m1 = none ∨ ∃ mm, m1 = some mm ∧ 1 ≤ mm)
    (h2 : m2 = none ∨ ∃ mm, m2 = some mm ∧ 1 ≤ mm) :
    calc_mean_frame frames m1 = some (nanMeanFrames frames) ∧
      calc_mean_frame frames m1 = calc_mean_frame frames m2 := by
  have e1 := calc_mean_frame_fin frames m1 hne hfin h1
  have e2 := calc_mean_frame_fin frames m2 hne hfin h2
  exact ⟨e1, e1.trans e2.symm⟩

theorem claim_C1_witness :
    ((([(fun _ => some 1), (fun _ => some 3)] : List Frame) ≠ []) ∧
      (∀ g ∈ ([(fun _ => some 1), (fun _ => some 3)] : List Frame),
        ∀ p, (g p).isSome)) ∧
    (calc_mean_frame [(fun _ => some 1), (fun _ => some 3)] (some 1) =
        some (nanMeanFrames [(fun _ => some 1), (fun _ => some 3)]) ∧
      calc_mean_frame [(fun _ => some 1), (fun _ => some 3)] (some 1) =
        calc_mean_frame [(fun _ => some 1), (fun _ => some 3)] none) :=
  ⟨⟨List.cons_ne_nil _ _, by
      intro g hg p
      simp only [List.mem_cons, List.not_mem_nil, or_false] at hg
      rcases hg with rfl | rfl <;> rfl⟩,
    claim_C1_amended _ (some 1) none (List.cons_ne_nil _ _)
      (by
        intro g hg p
        simp only [List.mem_cons, List.not_mem_nil, or_false] at hg
        rcases hg with rfl | rfl <;> rfl)
      (Or.inr ⟨1, rfl, le_refl 1⟩) (Or.inl rfl)⟩

/-- C6: for `N ≥ 1` frames and finite ceiling `C ≥ 1`, the chunk
partition has `ceil(N / C)` chunks; every chunk except the last has `C`
frames; the last has `N mod C` frames (`C` when `C` divides `N`); the
sizes sum to `N`; chunk `i` starts at positional index `i·C` (so the
chunks cover `0..N-1` contiguously and in order); and each chunk weight
equals `size / N`. -/
theorem claim_C6 (N C : ℕ) (hN : 1 ≤ N) (hC : 1 ≤ C) :
    (chunkSizes N C).length = pyCeilDiv N C ∧
    N ≤ (chunkSizes N C).length * C ∧
    ((chunkSizes N C).length - 1) * C < N ∧
    (∀ i, i + 1 < (chunkSizes N C).length → (chunkSizes N C).getD i 0 = C) ∧
    (chunkSizes N C).getLast? = some (if N % C = 0 then C else N % C) ∧
    (chunkSizes N C).sum = N ∧
    (∀ i, i < (chunkSizes N C).length → ((chunkSizes N C).take i).sum = i * C) ∧
    (∀ i, i < (chunkSizes N C).length →
      (chunkWeights N C).getD i 0 = ((chunkSizes N C).getD i 0 : ℚ) / (N : ℚ)) := by
  refine ⟨chunkSizes_length hC N, ?_, ?_, chunkSizes_getD hC N,
    chunkSizes_getLast? hC N hN, chunkSizes_sum hC N,
    chunkSizes_take_sum hC N, ?_⟩
  · rw [chunkSizes_length hC N]
    exact (pyCeilDiv_spec hC hN).1
  · rw [chunkSizes_length hC N]
    exact (pyCeilDiv_spec hC hN).2
  · intro i hi
    unfold chunkWeights
    have hi2 : i < ((chunkSizes N C).map
        (fun (sz : ℕ) => (sz : ℚ) / (N : ℚ))).length := by
      rw [List.length_map]
      exact hi
    rw [List.getD_eq_getElem _ _ hi2, List.getD_eq_getElem _ _ hi,
      List.getElem_map]

theorem claim_C6_witness :
    (1 ≤ 5 ∧ 1 ≤ 2) ∧
    ((chunkSizes 5 2).length = pyCeilDiv 5 2 ∧
    5 ≤ (chunkSizes 5 2).length * 2 ∧
    ((chunkSizes 5 2).length - 1) * 2 < 5 ∧
    (∀ i, i + 1 < (chunkSizes 5 2).length → (chunkSizes 5 2).getD i 0 = 2) ∧
    (chunkSizes 5 2).getLast? = some (if 5 % 2 = 0 then 2 else 5 % 2) ∧
    (chunkSizes 5 2).sum = 5 ∧
    (∀ i, i < (chunkSizes 5 2).length → ((chunkSizes 5 2).take i).sum = i * 2) ∧
    (∀ i, i < (chunkSizes 5 2).length →
      (chunkWeights 5 2).getD i 0 = ((chunkSizes 5 2).getD i 0 : ℚ) / (5 : ℚ))) :=
  ⟨⟨by decide, by decide⟩, claim_C6 5 2 (by decide) (by decide)⟩

/-! ### Failure propagation -/

theorem chunkLoopE_fail (w : ℕ → ℚ) {m : ℕ} (hm : 1 ≤ m) :
    ∀ tot (load : ℕ → Option Frame) j, j < tot → load j = none → ∀ acc,
      chunkLoopE load w m (chunkSizes tot m) 0 acc = none := by
  intro tot
  induction tot using Nat.strong_induction_on with
  | _ tot ih =>
    intro load j hj hload acc
    have h1 : 1 ≤ tot := by omega
    rcases le_or_lt tot m with hle | hlt
    · rw [chunkSizes_base h1 hle]
      have hfail : chunkLoadE load (0 * m) tot = none := by
        rw [Nat.zero_mul]
        unfold chunkLoadE
        exact loadList_mem_none load j hload _
          (by rw [List.mem_range'_1]; omega)
      simp only [chunkLoopE, hfail]
    · rw [chunkSizes_step hm hlt]
      rcases lt_or_le j m with hjm | hjm
      · have hfail : chunkLoadE load (0 * m) m = none := by
          rw [Nat.zero_mul]
          unfold chunkLoadE
          exact loadList_mem_none load j hload _
            (by rw [List.mem_range'_1]; omega)
        simp only [chunkLoopE, hfail]
      · simp only [chunkLoopE]
        cases hc : chunkLoadE load (0 * m) m with
        | none => rfl
        | some chunk =>
          dsimp only
          rw [chunkLoopE_shift]
          exact ih (tot - m) (by omega) (fun j2 => load (j2 + m)) (j - m)
            (by omega) (by show load (j - m + m) = none
                           rw [show j - m + m = j by omega]
                           exact hload) _

/-- C9: if any frame fails to load anywhere in the sequence, the whole
accumulation of `calc_mean_frame` fails — the error propagates to the
caller and no partial averaged frame is ever returned (the result is
`none`, never `some` of a partially accumulated frame). -/
theorem claim_C9 (load : ℕ → Option Frame) (tot : ℕ) (m : Option ℕ) (j : ℕ)
    (hj : j < tot) (hload : load j = none) :
    calc_mean_frame_load load tot m = none := by
  unfold calc_mean_frame_load accumFrames
  have h0 : ¬ (tot = 0) := by omega
  rw [if_neg h0]
  cases m with
  | none =>
    have hfail : chunkLoadE load (0 * 0) tot = none := by
      rw [Nat.zero_mul]
      unfold chunkLoadE
      exact loadList_mem_none load j hload _
        (by rw [List.mem_range'_1]; omega)
    simp only [chunkLoopE, hfail]
  | some mm =>
    by_cases hmm : mm = 0
    · subst hmm
      simp
    · dsimp only
      rw [if_neg hmm]
      exact chunkLoopE_fail _ (by omega) tot load j hj hload zerosF

theorem claim_C9_witness :
    (0 < 3 ∧ (fun _ : ℕ => (none : Option Frame)) 0 = none) ∧
      calc_mean_frame_load (fun _ => none) 3 (some 2) = none :=
  ⟨⟨by decide, rfl⟩, claim_C9 (fun _ => none) 3 (some 2) 0 (by decide) rfl⟩

/-! ### Chop/nod sign derivation (`calc_chopnod_frame`) -/

/-- The round-half-to-even rounding of Python's built-in `round`, on an
exact rational. -/
def pyRound (q : ℚ) : ℤ :=
  let f := Int.floor q
  let r := q - (f : ℚ)
  if r < 1 / 2 then f
  else if 1 / 2 < r then f + 1
  else if f % 2 = 0 then f else f + 1

/-- The values the source stores in `header_dict` for the output fits
header (chop/nod provenance summary). -/
structure ChopSummary where
  chopfreq : Option ℚ
  chop_pos_frames : ℕ
  Nchopcycles : ℕ
  nodfreq : Option ℚ
  nod_pos_frames : ℕ
  Nnodcycles : ℕ
  Nchopcyc_per_nodpos : ℕ

/-- Elementwise product of two 1-D numpy arrays under numpy's broadcast
rule: equal lengths multiply pairwise, a length-1 operand broadcasts,
anything else raises ValueError (`none`). -/
def npMul1D (a b : List ℚ) : Option (List ℚ) :=
  if a.length = b.length then some (List.zipWith (fun x y => x * y) a b)
  else if a.length = 1 then some (b.map (fun y => a.headI * y))
  else if b.length = 1 then some (a.map (fun x => x * b.headI))
  else none

/-- The nod position/cycle frame counts: `round(framerate/nodfreq)`
halved when a nod frequency is given, else one nod position covering the
whole sequence (`nod_pos_frames = totframes; nod_cycle_frames =
nod_pos_frames * 2`).  `none` models the ValueError of
`np.ones(negative)` or the ZeroDivisionError of `int(tot/0)` downstream
for a nonpositive rounded cycle length. -/
def nodParams (totframes : ℕ) (framerate : ℚ) (nodfreq : Option ℚ) :
    Option (ℕ × ℕ) :=
  match nodfreq with
  | some nf =>
    let ncfZ := pyRound (framerate / nf)
    if ncfZ ≤ 0 then none
    else some ((pyRound ((ncfZ : ℚ) / 2)).toNat, ncfZ.toNat)
  | none => some (totframes, totframes * 2)

/-- The sign-derivation block of `calc_chopnod_frame` (source lines
352-389): chop/nod cycle lengths from rounded frequency ratios, one-cycle
sign templates (`np.ones(pos) ++ -np.ones(pos)`), tiling by
`int(totframes/cycle_frames)` repetitions (or truncation when
`totframes < cycle_frames`), and the elementwise product
`framesigns = chopsigns * nodsigns`.  `none` models the exceptions the
source would raise (`float(None)` TypeError when only `nodfreq` is
given, ZeroDivisionError for a zero cycle length, `np.ones` ValueError
for a negative one, and the broadcast ValueError when the tiled arrays
have mismatched lengths). -/
def derive_signs (totframes : ℕ) (framerate : ℚ)
    (chopfreq nodfreq : Option ℚ) : Option (List ℚ × ChopSummary) :=
  match chopfreq with
  | none => none
  | some cf =>
    let ccfZ : ℤ := pyRound (framerate / cf)
    if ccfZ ≤ 0 then none
    else
      let ccf : ℕ := ccfZ.toNat
      let cpf : ℕ := (pyRound ((ccfZ : ℚ) / 2)).toNat
      match nodParams totframes framerate nodfreq with
      | none => none
      | some (npf, ncf) =>
        if ncf = 0 then none
        else
          let nChopCycles := totframes / ccf
          let nNodCycles := totframes / ncf
          let nChopPerNod := npf / ncf
          let single_chop :=
            List.replicate cpf (1 : ℚ) ++ List.replicate cpf (-1 : ℚ)
          let chopsigns :=
            if ccf ≤ totframes then
              (List.replicate nChopCycles single_chop).join
            else single_chop.take totframes
          let single_nod :=
            List.replicate npf (1 : ℚ) ++ List.replicate npf (-1 : ℚ)
          let nodsigns :=
            if ncf ≤ totframes then
              (List.replicate nNodCycles single_nod).join
            else single_nod.take totframes
          match npMul1D chopsigns nodsigns with
          | none => none
          | some framesigns =>
            some (framesigns,
              ⟨some cf, cpf, nChopCycles, nodfreq, npf, nNodCycles,
                nChopPerNod⟩)

/-- `calc_chopnod_frame` on a resolved frame sequence.  With a chop or
nod frequency given, each loaded frame is multiplied by its
`framesigns[j]` entry and the weighted chunk accumulation runs with
per-chunk weight `nframes_per_chunk[i] * (1/totframes)`; with both
frequencies absent it delegates to `calc_mean_frame`.  The summary is
returned only when `_fitsdict_` is set; in the delegation branch a set
`_fitsdict_` makes the source crash with NameError (`chop_pos_frames`
is never assigned there), modelled as `none`. -/
def calc_chopnod_frame (frames : List Frame) (framerate : ℚ)
    (chopfreq nodfreq : Option ℚ) (m : Option ℕ) (fitsdict : Bool) :
    Option (Frame × Option ChopSummary) :=
  if chopfreq.isSome ∨ nodfreq.isSome then
    if frames.isEmpty then none
    else
      match derive_signs frames.length framerate chopfreq nodfreq with
      | none => none
      | some (framesigns, summ) =>
        let tot := frames.length
        let frameweight : ℚ := 1 / (tot : ℚ)
        let load : ℕ → Option Frame := fun j =>
          match frames.get? j, framesigns.get? j with
          | some f, some s => some (smulR f s)
          | _, _ => none
        match accumFrames load tot m (fun sz => (sz : ℚ) * frameweight) with
        | none => none
        | some diffframe =>
          some (diffframe, if fitsdict then some summ else none)
  else
    match calc_mean_frame frames m with
    | none => none
    | some avg => if fitsdict then none else some (avg, none)

/-- C3 (code bug): with both frequencies absent, `calc_chopnod_frame`
returns exactly the `calc_mean_frame` result on the identical sequence
and ceiling together with a `none` summary when no summary is requested;
but when a summary is requested (`_fitsdict_=True`) the source raises
NameError (`chop_pos_frames` is referenced in `header_dict` but never
assigned in the fallback branch) instead of returning `(mean, None)` as
the spec states. -/
theorem claim_C3 (frames : List Frame) (framerate : ℚ) (m : Option ℕ) :
    calc_chopnod_frame frames framerate none none m false =
      (calc_mean_frame frames m).map (fun avg => (avg, none)) ∧
    calc_chopnod_frame frames framerate none none m true = none := by
  constructor
  · unfold calc_chopnod_frame
    rw [if_neg (by simp)]
    cases h : calc_mean_frame frames m with
    | none => rfl
    | some avg => rfl
  · unfold calc_chopnod_frame
    rw [if_neg (by simp)]
    cases h : calc_mean_frame frames m with
    | none => rfl
    | some avg => rfl

/-- The sign template-and-tiling described by the spec for one
periodicity (chop or nod): a template whose first half is `+1` and
second half `-1`, tiled to cover `tot` frames when at least one full
cycle fits, truncated otherwise. -/
def specTile (pos_frames cycle_frames tot : ℕ) : List ℚ :=
  let template :=
    List.replicate pos_frames (1 : ℚ) ++ List.replicate pos_frames (-1 : ℚ)
  if cycle_frames ≤ tot then (List.replicate (tot / cycle_frames) template).join
  else template.take tot

theorem specTile_length (pos cyc tot : ℕ) (heq : cyc = 2 * pos)
    (hdvd : cyc ≤ tot → cyc ∣ tot) : (specTile pos cyc tot).length = tot := by
  unfold specTile
  by_cases h : cyc ≤ tot
  · rw [if_pos h, List.length_join, List.map_replicate, List.length_append,
      List.length_replicate, List.length_replicate, List.sum_replicate,
      smul_eq_mul]
    have hpp : pos + pos = cyc := by omega
    rw [hpp]
    exact Nat.div_mul_cancel (hdvd h)
  · rw [if_neg h, List.length_take, List.length_append,
      List.length_replicate, List.length_replicate]
    omega

theorem specTile_mem (pos cyc tot : ℕ) :
    ∀ s ∈ specTile pos cyc tot, s = 1 ∨ s = -1 := by
  unfold specTile
  intro s hs
  have htempl : ∀ x ∈ (List.replicate pos (1 : ℚ) ++
      List.replicate pos (-1 : ℚ)), x = 1 ∨ x = -1 := by
    intro x hx
    rcases List.mem_append.mp hx with h | h
    · exact Or.inl (List.eq_of_mem_replicate h)
    · exact Or.inr (List.eq_of_mem_replicate h)
  by_cases h : cyc ≤ tot
  · rw [if_pos h] at hs
    rcases List.mem_join.mp hs with ⟨l, hl, hsl⟩
    rw [List.eq_of_mem_replicate hl] at hsl
    exact htempl s hsl
  · rw [if_neg h] at hs
    exact htempl s (List.take_subset _ _ hs)

theorem zipWith_mul_pm :
    ∀ (a b : List ℚ), (∀ x ∈ a, x = 1 ∨ x = -1) →
      (∀ x ∈ b, x = 1 ∨ x = -1) →
      ∀ s ∈ List.zipWith (fun x y => x * y) a b, s = 1 ∨ s = -1 := by
  intro a
  induction a with
  | nil => intro b _ _ s hs; simp at hs
  | cons x xs ih =>
    intro b ha hb s hs
    cases b with
    | nil => simp at hs
    | cons y ys =>
      rw [List.zipWith_cons_cons] at hs
      rcases List.mem_cons.mp hs with he | hmem
      · subst he
        rcases ha x (List.mem_cons_self _ _) with rfl | rfl <;>
          rcases hb y (List.mem_cons_self _ _) with rfl | rfl <;> norm_num
      · exact ih ys (fun z hz => ha z (List.mem_cons_of_mem _ hz))
          (fun z hz => hb z (List.mem_cons_of_mem _ hz)) s hmem

/-- C2 (amended): when each rounded cycle length is even (so the
template of half `+1`s and half `-1`s has exactly `cycle_frames`
entries) and, whenever at least one full cycle fits, the cycle length
divides `total_frames`, the derived per-frame sign array exists, has
exactly one `±1` entry per frame, and equals the elementwise product of
the tiled-or-truncated chop template with the analogous nod template.
(As originally stated — for every `total_frames` — the claim is false:
when the cycle length does not divide `total_frames` the tiled chop and
nod arrays have different lengths and the source raises a broadcast
ValueError instead of producing a sign per frame; see the
counterexample.) -/
theorem claim_C2_amended (tot : ℕ) (framerate cf : ℚ) (nodfreq : Option ℚ)
    (npf ncf : ℕ) (htot : 1 ≤ tot)
    (hccf : 0 < pyRound (framerate / cf))
    (heven : (pyRound (framerate / cf)).toNat =
      2 * (pyRound (((pyRound (framerate / cf) : ℤ) : ℚ) / 2)).toNat)
    (hdvd : (pyRound (framerate / cf)).toNat ≤ tot →
      (pyRound (framerate / cf)).toNat ∣ tot)
    (hnp : nodParams tot framerate nodfreq = some (npf, ncf))
    (hncf : 0 < ncf) (hneven : ncf = 2 * npf)
    (hndvd : ncf ≤ tot → ncf ∣ tot) :
    ∃ summ : ChopSummary, ∃ signs : List ℚ,
      derive_signs tot framerate (some cf) nodfreq = some (signs, summ) ∧
      signs = List.zipWith (fun x y => x * y)
        (specTile ((pyRound (framerate / cf)).toNat / 2)
          (pyRound (framerate / cf)).toNat tot)
        (specTile (ncf / 2) ncf tot) ∧
      signs.length = tot ∧
      (∀ s ∈ signs, s = 1 ∨ s = -1) := by
  have hcpf : (pyRound (framerate / cf)).toNat / 2 =
      (pyRound (((pyRound (framerate / cf) : ℤ) : ℚ) / 2)).toNat := by omega
  have hnpf : ncf / 2 = npf := by omega
  have hchop : (if (pyRound (framerate / cf)).toNat ≤ tot then
        (List.replicate (tot / (pyRound (framerate / cf)).toNat)
          (List.replicate (pyRound (((pyRound (framerate / cf) : ℤ) : ℚ) /
              2)).toNat (1 : ℚ) ++
            List.replicate (pyRound (((pyRound (framerate / cf) : ℤ) : ℚ) /
              2)).toNat (-1 : ℚ))).join
      else
        (List.replicate (pyRound (((pyRound (framerate / cf) : ℤ) : ℚ) /
            2)).toNat (1 : ℚ) ++
          List.replicate (pyRound (((pyRound (framerate / cf) : ℤ) : ℚ) /
            2)).toNat (-1 : ℚ)).take tot) =
      specTile ((pyRound (framerate / cf)).toNat / 2)
        (pyRound (framerate / cf)).toNat tot := by
    unfold specTile
    rw [hcpf]
  have hnod : (if ncf ≤ tot then
        (List.replicate (tot / ncf)
          (List.replicate npf (1 : ℚ) ++
            List.replicate npf (-1 : ℚ))).join
      else
        (List.replicate npf (1 : ℚ) ++
          List.replicate npf (-1 : ℚ)).take tot) =
      specTile (ncf / 2) ncf tot := by
    unfold specTile
    rw [hnpf]
  have hclen : (specTile ((pyRound (framerate / cf)).toNat / 2)
      (pyRound (framerate / cf)).toNat tot).length = tot :=
    specTile_length _ _ _ (by omega) hdvd
  have hnlen : (specTile (ncf / 2) ncf tot).length = tot :=
    specTile_length _ _ _ (by omega) hndvd
  unfold derive_signs
  dsimp only
  rw [if_neg (by omega : ¬ pyRound (framerate / cf) ≤ 0), hnp]
  dsimp only
  rw [if_neg (by omega : ¬ ncf = 0)]
  rw [hchop, hnod]
  unfold npMul1D
  rw [if_pos (by rw [hclen, hnlen])]
  refine ⟨_, _, rfl, rfl, ?_, ?_⟩
  · rw [List.length_zipWith, hclen, hnlen]
    exact Nat.min_self tot
  · exact zipWith_mul_pm _ _ (specTile_mem _ _ _) (specTile_mem _ _ _)

/-- C2 (counterexample): as stated, the claim is false on the code — for
`total_frames = 10`, `frame_rate = 8`, `chop_freq = 2` (chop cycle of 4
frames) and no nod frequency, the tiled chop sign array has
`(10 / 4) * 4 = 8` entries while the nod sign array has 10, so
`chopsigns * nodsigns` raises a broadcast ValueError (`none`) instead of
yielding one sign per frame. -/
theorem claim_C2_counterexample : derive_signs 10 8 (some 2) none = none := by
  have h4 : pyRound ((8 : ℚ) / 2) = 4 := by norm_num [pyRound]
  have h2 : pyRound (((4 : ℤ) : ℚ) / 2) = 2 := by norm_num [pyRound]
  have h2q : pyRound ((4 : ℚ) / 2) = 2 := by norm_num [pyRound]
  unfold derive_signs nodParams
  dsimp only
  rw [h4]
  simp [h2, h2q, npMul1D, List.length_take, List.length_append,
    List.length_join, List.map_replicate, List.sum_replicate]

theorem claim_C2_witness :
    (1 ≤ 8 ∧ 0 < pyRound ((8 : ℚ) / 2) ∧
      (pyRound ((8 : ℚ) / 2)).toNat =
        2 * (pyRound (((pyRound ((8 : ℚ) / 2) : ℤ) : ℚ) / 2)).toNat ∧
      ((pyRound ((8 : ℚ) / 2)).toNat ≤ 8 →
        (pyRound ((8 : ℚ) / 2)).toNat ∣ 8) ∧
      nodParams 8 8 none = some (8, 16) ∧
      0 < 16 ∧ 16 = 2 * 8 ∧ ((16 : ℕ) ≤ 8 → (16 : ℕ) ∣ 8)) ∧
    (∃ summ : ChopSummary, ∃ signs : List ℚ,
      derive_signs 8 8 (some 2) none = some (signs, summ) ∧
      signs = List.zipWith (fun x y => x * y)
        (specTile ((pyRound ((8 : ℚ) / 2)).toNat / 2)
          (pyRound ((8 : ℚ) / 2)).toNat 8)
        (specTile (16 / 2) 16 8) ∧
      signs.length = 8 ∧
      (∀ s ∈ signs, s = 1 ∨ s = -1)) := by
  have h4 : pyRound ((8 : ℚ) / 2) = 4 := by norm_num [pyRound]
  have h2 : pyRound (((4 : ℤ) : ℚ) / 2) = 2 := by norm_num [pyRound]
  have hccf : 0 < pyRound ((8 : ℚ) / 2) := by rw [h4]; norm_num
  have heven : (pyRound ((8 : ℚ) / 2)).toNat =
      2 * (pyRound (((pyRound ((8 : ℚ) / 2) : ℤ) : ℚ) / 2)).toNat := by
    rw [h4, h2]
    decide
  have hdvd : (pyRound ((8 : ℚ) / 2)).toNat ≤ 8 →
      (pyRound ((8 : ℚ) / 2)).toNat ∣ 8 := by
    rw [h4]
    intro
    decide
  exact ⟨⟨by norm_num, hccf, heven, hdvd, rfl, by norm_num, by norm_num,
    by omega⟩,
    claim_C2_amended 8 8 2 none 8 16 (by norm_num) hccf heven hdvd rfl
      (by norm_num) (by norm_num) (by omega)⟩

/-! ### Flatfield creation (`create_flatfield`) -/

/-- Insertion into a sorted list of rationals (ascending). -/
def insertSorted (x : ℚ) : List ℚ → List ℚ
  | [] => [x]
  | y :: ys => if x ≤ y then x :: y :: ys else y :: insertSorted x ys

/-- Ascending sort of a list of rationals. -/
def sortQ (l : List ℚ) : List ℚ := l.foldr insertSorted []

/-- `np.median` of a nonempty list of finite values: middle element of
the sorted list, or the mean of the two middle elements for even
length; NaN (`none`) for an empty list. -/
def npMedian (l : List ℚ) : Option ℚ :=
  if l.length = 0 then none
  else
    let s := sortQ l
    let n := s.length
    if n % 2 = 1 then some (s.getD (n / 2) 0)
    else some ((s.getD (n / 2 - 1) 0 + s.getD (n / 2) 0) / 2)

/-- `np.nanmedian`: the median of the non-NaN entries. -/
def nanMedianL (vs : List Val) : Val := npMedian (vs.filterMap id)

/-- The per-frame scalar median over all `npix` pixels of a frame
(`np.nanmedian(..., axis=(1,2))` for one frame). -/
def frameMedianVals (npix : ℕ) (f : Frame) : Val :=
  nanMedianL ((List.range npix).map f)

/-- The
`np.ma.masked_array(chunk_frames, mask=chunk_frames*bpmask).filled(np.nan)`
step of `create_flatfield`, for one frame: the mask entry at a pixel is
the (dark-subtracted) data value times the bad-pixel flag, and the pixel
is replaced by NaN for the median computation exactly where that product
is truthy — nonzero, or NaN (a NaN data value is masked and stays NaN
either way). -/
def maskedFill (bp : ℕ → ℚ) (f : Frame) : Frame := fun p =>
  match f p with
  | none => none
  | some x => if x * bp p ≠ 0 then none else some x

/-- The per-chunk frame ceiling actually used by `create_flatfield`:
`int(max_frames_inmem / 2)` when a bad-pixel mask file is supplied, the
full `max_frames_inmem` otherwise. -/
def flatfieldEffectiveCeiling (bpmask : Option (ℕ → ℚ)) (mim : ℕ) : ℕ :=
  match bpmask with
  | some _ => mim / 2
  | none => mim

/-- The per-frame transform of the `create_flatfield` chunk loop:
subtract the master dark, compute this frame's scalar NaN-ignoring
median (over the mask-filled copy when a bad-pixel mask is supplied),
and divide the (unmasked) dark-subtracted frame by that median.  The
accumulated frame keeps the bad pixels: only the median sees the mask
(`chunk_frames = chunk_frames.data` restores the unmasked values). -/
def normalizeFrame (npix : ℕ) (dark : Frame) (bpmask : Option (ℕ → ℚ))
    (f : Frame) : Frame :=
  let fsub := subF f dark
  let med :=
    match bpmask with
    | some bp => frameMedianVals npix (maskedFill bp fsub)
    | none => frameMedianVals npix fsub
  fun p => divV (fsub p) med

/-- The core accumulation of `create_flatfield` (source lines 386-494):
the same weighted chunk loop as `calc_mean_frame`, over dark-subtracted,
median-normalized frames, with the effective ceiling halved when a
bad-pixel mask is supplied.  The per-chunk median vector and division
are per-frame operations, so they are applied in the loader. -/
def create_flatfield_core (frames : List Frame) (npix : ℕ) (dark : Frame)
    (bpmask : Option (ℕ → ℚ)) (max_frames_inmem : Option ℕ) : Option Frame :=
  accumFrames
    (fun j => (frames.get? j).map (normalizeFrame npix dark bpmask))
    frames.length
    (max_frames_inmem.map (flatfieldEffectiveCeiling bpmask))
    (fun sz => (sz : ℚ) / (frames.length : ℚ))

/-- `create_flatfield_core` is the plain chunked mean of the normalized
frame sequence, at the effective ceiling. -/
theorem create_flatfield_as_mean (frames : List Frame) (npix : ℕ)
    (dark : Frame) (bp : Option (ℕ → ℚ)) (mi : Option ℕ) :
    create_flatfield_core frames npix dark bp mi =
      calc_mean_frame (frames.map (normalizeFrame npix dark bp))
        (mi.map (flatfieldEffectiveCeiling bp)) := by
  unfold create_flatfield_core calc_mean_frame calc_mean_frame_load
  rw [List.length_map]
  congr 1
  funext j
  rw [List.get?_map]

/-- C7: with a bad-pixel mask supplied, the effective per-chunk frame
ceiling used for chunk partitioning in the flatfield computation is
`floor(ceiling / 2)`, and every chunk of the resulting partition holds
at most `floor(ceiling / 2)` frames; without a mask the full ceiling
applies and every chunk holds at most `ceiling` frames. -/
theorem claim_C7 (bp : ℕ → ℚ) (mim tot : ℕ) (h2 : 2 ≤ mim) :
    flatfieldEffectiveCeiling (some bp) mim = mim / 2 ∧
    flatfieldEffectiveCeiling none mim = mim ∧
    (∀ sz ∈ chunkSizes tot (mim / 2), sz ≤ mim / 2) ∧
    (∀ sz ∈ chunkSizes tot mim, sz ≤ mim) := by
  refine ⟨rfl, rfl, ?_, ?_⟩
  · intro sz hs
    exact (chunkSizes_mem (by omega) tot sz hs).2
  · intro sz hs
    exact (chunkSizes_mem (by omega) tot sz hs).2

theorem claim_C7_witness :
    (2 ≤ 10) ∧
    (flatfieldEffectiveCeiling (some (fun _ => 0)) 10 = 10 / 2 ∧
    flatfieldEffectiveCeiling none 10 = 10 ∧
    (∀ sz ∈ chunkSizes 23 (10 / 2), sz ≤ 10 / 2) ∧
    (∀ sz ∈ chunkSizes 23 10, sz ≤ 10)) :=
  ⟨by decide, claim_C7 (fun _ => 0) 10 23 (by decide)⟩

theorem filterMap_id_map_some (xs : List ℚ) :
    (xs.map some).filterMap id = xs := by
  induction xs with
  | nil => rfl
  | cons a rest ihr => simp [ihr]

theorem npMedian_isSome (l : List ℚ) (h : l ≠ []) : (npMedian l).isSome := by
  unfold npMedian
  have hlen : ¬ l.length = 0 := fun h0 => h (List.length_eq_zero.mp h0)
  rw [if_neg hlen]
  by_cases h2 : (sortQ l).length % 2 = 1 <;> simp [h2]

theorem map_fn_eq_map_some (g : ℕ → Val) (hg : ∀ p, (g p).isSome) :
    ∀ l : List ℕ, l.map g = (l.map (fun p => (g p).getD 0)).map some := by
  intro l
  induction l with
  | nil => rfl
  | cons a rest ihr =>
    have ha : g a = some ((g a).getD 0) := by
      cases hc : g a with
      | none =>
        have hga := hg a
        rw [hc] at hga
        simp at hga
      | some x => rfl
    simp only [List.map_cons]
    rw [ihr, ← ha]

theorem frameMedianVals_isSome (npix : ℕ) (f : Frame)
    (hf : ∀ p, (f p).isSome) (hnp : 1 ≤ npix) :
    (frameMedianVals npix f).isSome := by
  unfold frameMedianVals nanMedianL
  rw [map_fn_eq_map_some f hf, filterMap_id_map_some]
  apply npMedian_isSome
  intro hnil
  have := congrArg List.length hnil
  simp at this
  omega

theorem maskedFill_zero (f : Frame) : maskedFill (fun _ => 0) f = f := by
  funext p
  unfold maskedFill
  cases h : f p with
  | none => rfl
  | some x => simp

theorem normalizeFrame_zero_mask (npix : ℕ) (dark : Frame) (f : Frame) :
    normalizeFrame npix dark (some (fun _ => 0)) f =
      normalizeFrame npix dark none f := by
  unfold normalizeFrame
  dsimp only
  rw [maskedFill_zero]

theorem normalizeFrame_fin (npix : ℕ) (dark f : Frame)
    (hd : ∀ p, (dark p).isSome) (hf : ∀ p, (f p).isSome) (hnp : 1 ≤ npix)
    (hmed : frameMedianVals npix (subF f dark) ≠ some 0) :
    ∀ p, (normalizeFrame npix dark none f p).isSome := by
  intro p
  have hsub : ∀ q, (subF f dark q).isSome := by
    intro q
    unfold subF subV
    cases hc : f q with
    | none =>
      have hfq := hf q
      rw [hc] at hfq
      simp at hfq
    | some x =>
      cases hcd : dark q with
      | none =>
        have hdq := hd q
        rw [hcd] at hdq
        simp at hdq
      | some y => rfl
  have hmeds := frameMedianVals_isSome npix (subF f dark) hsub hnp
  obtain ⟨q, hq⟩ := Option.isSome_iff_exists.mp hmeds
  obtain ⟨x, hx⟩ := Option.isSome_iff_exists.mp (hsub p)
  unfold normalizeFrame
  dsimp only
  show (divV (subF f dark p) (frameMedianVals npix (subF f dark))).isSome
  rw [hq, hx]
  unfold divV
  have hq0 : q ≠ 0 := by
    intro h0
    rw [h0] at hq
    exact hmed hq
  simp [hq0]

/-- C4 (amended): for a NaN-free frame sequence and NaN-free dark frame
(with at least one pixel and every dark-subtracted frame having a
nonzero median), the flatfield computation with an all-false bad-pixel
mask is numerically identical to the computation with no mask at all,
for any ceiling that is `None` or at least 2 — even though the mask
halves the effective chunk ceiling.  (As originally stated — for every
sequence — the claim is false: a NaN pixel makes the two differently
chunked accumulations disagree; see the counterexample.) -/
theorem claim_C4_amended (frames : List Frame) (npix : ℕ) (dark : Frame)
    (mi : Option ℕ)
    (hfr : ∀ g ∈ frames, ∀ p, (g p).isSome)
    (hd : ∀ p, (dark p).isSome)
    (hnp : 1 ≤ npix)
    (hmed : ∀ g ∈ frames, frameMedianVals npix (subF g dark) ≠ some 0)
    (hmi : mi = none ∨ ∃ mm, mi = some mm ∧ 2 ≤ mm) :
    create_flatfield_core frames npix dark (some (fun _ => 0)) mi =
      create_flatfield_core frames npix dark none mi := by
  rw [create_flatfield_as_mean, create_flatfield_as_mean]
  rw [show normalizeFrame npix dark (some (fun _ => 0)) =
      normalizeFrame npix dark none from
    funext (normalizeFrame_zero_mask npix dark)]
  by_cases hne : frames = []
  · subst hne
    rfl
  · have hfin2 : ∀ g2 ∈ frames.map (normalizeFrame npix dark none),
        ∀ p, (g2 p).isSome := by
      intro g2 hg2 p
      rcases List.mem_map.mp hg2 with ⟨g, hg, rfl⟩
      exact normalizeFrame_fin npix dark g hd (hfr g hg) hnp (hmed g hg) p
    have hmapne : frames.map (normalizeFrame npix dark none) ≠ [] := by
      simp [hne]
    rcases hmi with rfl | ⟨mm, rfl, hmm⟩
    · rfl
    · simp only [Option.map_some']
      show calc_mean_frame _ (some (mm / 2)) = calc_mean_frame _ (some mm)
      rw [calc_mean_frame_fin _ _ hmapne hfin2
        (Or.inr ⟨mm / 2, rfl, by omega⟩)]
      rw [calc_mean_frame_fin _ _ hmapne hfin2
        (Or.inr ⟨mm, rfl, by omega⟩)]

/-- C4 (counterexample): as stated, the claim is false on the code — with
a NaN pixel in the first frame, ceiling 2, and an all-false mask, the
mask halves the effective chunk ceiling to 1 and the per-chunk NaN-aware
mean then differs from the unmasked single-chunk result at the NaN
pixel (NaN versus a finite mean). -/
theorem claim_C4_counterexample :
    create_flatfield_core
        [(fun p => if p = 0 then none else some 2),
          (fun p => if p = 0 then some 4 else some 6)]
        2 zerosF (some (fun _ => 0)) (some 2) ≠
      create_flatfield_core
        [(fun p => if p = 0 then none else some 2),
          (fun p => if p = 0 then some 4 else some 6)]
        2 zerosF none (some 2) := by
  intro h
  have h0 := congrArg (Option.map (fun fr => fr 0)) h
  have hrange : List.range 2 = [0, 1] := rfl
  have e1 : (Option.map (fun fr => fr 0) (create_flatfield_core
      [(fun p => if p = 0 then none else some 2),
        (fun p => if p = 0 then some 4 else some 6)]
      2 zerosF (some (fun _ => 0)) (some 2))) = some none := by
    norm_num [create_flatfield_core, accumFrames, flatfieldEffectiveCeiling,
      chunkSizes, pyCeilDiv, chunkLoopE, chunkLoadE, loadList, List.range',
      normalizeFrame, subF, subV, divV, maskedFill, frameMedianVals,
      nanMedianL, npMedian, sortQ, insertSorted, nanMeanFrames, nanMeanL,
      addF, addV, smulF, zerosF, hrange, List.filterMap_cons,
      List.filterMap_nil, id_eq, Option.map_some', Option.map_none']
  have e2 : (Option.map (fun fr => fr 0) (create_flatfield_core
      [(fun p => if p = 0 then none else some 2),
        (fun p => if p = 0 then some 4 else some 6)]
      2 zerosF none (some 2))) = some (some (4 / 5)) := by
    norm_num [create_flatfield_core, accumFrames, flatfieldEffectiveCeiling,
      chunkSizes, pyCeilDiv, chunkLoopE, chunkLoadE, loadList, List.range',
      normalizeFrame, subF, subV, divV, maskedFill, frameMedianVals,
      nanMedianL, npMedian, sortQ, insertSorted, nanMeanFrames, nanMeanL,
      addF, addV, smulF, zerosF, hrange, List.filterMap_cons,
      List.filterMap_nil, id_eq, Option.map_some', Option.map_none']
  rw [e1, e2] at h0
  simp at h0

theorem claim_C4_witness :
    ((∀ g ∈ ([(fun _ => some 2), (fun _ => some 4)] : List Frame),
        ∀ p, (g p).isSome) ∧
      (∀ p, (zerosF p).isSome) ∧ (1 : ℕ) ≤ 1 ∧
      (∀ g ∈ ([(fun _ => some 2), (fun _ => some 4)] : List Frame),
        frameMedianVals 1 (subF g zerosF) ≠ some 0)) ∧
    create_flatfield_core [(fun _ => some 2), (fun _ => some 4)] 1 zerosF
        (some (fun _ => 0)) (some 2) =
      create_flatfield_core [(fun _ => some 2), (fun _ => some 4)] 1 zerosF
        none (some 2) := by
  have hrange : List.range 1 = [0] := rfl
  have hfr : ∀ g ∈ ([(fun _ => some 2), (fun _ => some 4)] : List Frame),
      ∀ p, (g p).isSome := by
    intro g hg p
    simp only [List.mem_cons, List.not_mem_nil, or_false] at hg
    rcases hg with rfl | rfl <;> rfl
  have hd : ∀ p, (zerosF p).isSome := fun _ => rfl
  have hmed : ∀ g ∈ ([(fun _ => some 2), (fun _ => some 4)] : List Frame),
      frameMedianVals 1 (subF g zerosF) ≠ some 0 := by
    intro g hg
    simp only [List.mem_cons, List.not_mem_nil, or_false] at hg
    rcases hg with rfl | rfl <;>
      norm_num [frameMedianVals, nanMedianL, npMedian, sortQ, insertSorted,
        subF, subV, zerosF, hrange, List.filterMap_cons, List.filterMap_nil,
        id_eq]
  exact ⟨⟨hfr, hd, le_refl 1, hmed⟩,
    claim_C4_amended _ 1 zerosF (some 2) hfr hd (le_refl 1) hmed
      (Or.inr ⟨2, rfl, le_refl 2⟩)⟩

/-- Following the spec's words for the flatfield median (4.3): pixels
flagged bad are excluded from the frame's NaN-ignoring median
computation. -/
def specMaskedMedian (npix : ℕ) (bp : ℕ → ℚ) (f : Frame) : Val :=
  nanMedianL (((List.range npix).filter (fun p => decide (bp p = 0))).map f)

/-- C5 (code bug): each loaded frame has the dark subtracted first and
is divided by its own scalar NaN-ignoring median, with the mask applied
to the median only (the accumulated value at every pixel is the
unmasked dark-subtracted value over the median) — but "every pixel
flagged bad in the mask is excluded from that frame's median" fails:
the source builds the mask as `chunk_frames * bpmask_array`, so a
flagged pixel whose dark-subtracted value is exactly 0 has mask entry 0
and is not excluded.  At the failing input (dark-subtracted pixel
values [0, 2], first pixel flagged bad) the code's median is 1 while
the median with the flagged pixel excluded is 2. -/
theorem claim_C5 :
    (∀ (npix : ℕ) (dark : Frame) (bp : ℕ → ℚ) (f : Frame) (p : ℕ),
      normalizeFrame npix dark (some bp) f p =
        divV (subF f dark p)
          (frameMedianVals npix (maskedFill bp (subF f dark)))) ∧
    frameMedianVals 2 (maskedFill (fun p => if p = 0 then 1 else 0)
        (subF (fun p => if p = 0 then some 0 else some 2) zerosF)) =
      some 1 ∧
    specMaskedMedian 2 (fun p => if p = 0 then 1 else 0)
        (subF (fun p => if p = 0 then some 0 else some 2) zerosF) =
      some 2 ∧
    (some (1 : ℚ) : Val) ≠ some 2 := by
  have hrange : List.range 2 = [0, 1] := rfl
  refine ⟨fun npix dark bp f p => rfl, ?_, ?_, by norm_num⟩
  · norm_num [frameMedianVals, maskedFill, subF, subV, zerosF, nanMedianL,
      npMedian, sortQ, insertSorted, hrange, List.filterMap_cons,
      List.filterMap_nil, id_eq]
  · norm_num [specMaskedMedian, subF, subV, zerosF, nanMedianL, npMedian,
      sortQ, insertSorted, hrange, List.filterMap_cons, List.filterMap_nil,
      id_eq, List.filter_cons, List.filter_nil]

/-! ### Robust statistics (`statfunc.medabsdev`) -/

/-- `np.finfo(float).eps`. -/
def machineEps : ℚ := 1 / 2 ^ 52

/-- `np.median` (not NaN-ignoring): NaN when any entry is NaN. -/
def medianNoNan (vs : List Val) : Val :=
  if vs.any (fun v => v.isNone) then none else npMedian (vs.filterMap id)

/-- `np.mean` (not NaN-ignoring): NaN when any entry is NaN or the list
is empty. -/
def meanNoNan (vs : List Val) : Val :=
  if vs.any (fun v => v.isNone) then none
  else if vs.length = 0 then none
  else some ((vs.filterMap id).sum / (vs.length : ℚ))

/-- The elementwise comparison `sigma < eps` of numpy: false on NaN. -/
def ltEps (v : Val) : Bool :=
  match v with
  | none => false
  | some x => decide (x < machineEps)

/-- `medabsdev` of statfunc.py for a 1-D input with `axis=None` and
`keepdims=False` (the input is raveled, the reductions produce one
position, and `sigma[0]` is returned): the scaled median absolute
deviation with the near-zero fallback substitutions. -/
def medabsdev (data : List Val) (nan : Bool) : Val :=
  let medf : List Val → Val := cond nan nanMedianL medianNoNan
  let meanf : List Val → Val := cond nan nanMeanL meanNoNan
  let sig_scale : ℚ := 6744897501960817 / 10 ^ 16
  let med := medf data
  let absdiff := data.map (fun v => (subV v med).map (fun x => |x|))
  let sigma := (medf absdiff).map (fun x => x / sig_scale)
  let sigma2 := if ltEps sigma then
      (meanf absdiff).map (fun x => x / (8 / 10 : ℚ))
    else sigma
  if ltEps sigma2 then some 0 else sigma2

/-- C8: `medabsdev` computes
`median(|data - median(data)|) / 0.6744897501960817` (NaN-ignoring for
`nan=True`); where that is below machine epsilon it substitutes
`mean(|data - median(data)|) / 0.8`, and where that is also below
machine epsilon it substitutes exactly `0.0`.  In particular
`medabsdev [5,5,5,5,5]` is exactly `0.0` while `medabsdev [1,1,1,1,100]`
resolves through the first fallback to `99/4 = 24.75 ≠ 0`. -/
theorem claim_C8 :
    (∀ data : List Val,
      medabsdev data true =
        (let med := nanMedianL data
         let absdiff := data.map (fun v => (subV v med).map (fun x => |x|))
         let s1 := (nanMedianL absdiff).map
           (fun x => x / (6744897501960817 / 10 ^ 16 : ℚ))
         if ltEps s1 then
           (let s2 := (nanMeanL absdiff).map (fun x => x / (8 / 10 : ℚ))
            if ltEps s2 then some 0 else s2)
         else s1)) ∧
    medabsdev
      [some 5, some 5, some 5, some 5, some 5] true = some 0 ∧
    medabsdev
      [some 1, some 1, some 1, some 1, some 100] true = some (99 / 4) ∧
    (some (99 / 4 : ℚ) : Val) ≠ some 0 := by
  refine ⟨?_, ?_, ?_, by norm_num⟩
  · intro data
    unfold medabsdev
    simp only [cond_true]
    by_cases h1 : ltEps ((nanMedianL (data.map (fun v =>
        (subV v (nanMedianL data)).map (fun x => |x|)))).map
        (fun x => x / (6744897501960817 / 10 ^ 16 : ℚ)))
    · rw [if_pos h1, if_pos h1]
    · rw [if_neg h1, if_neg h1, if_neg h1]
  · norm_num [medabsdev, nanMedianL, nanMeanL, npMedian, sortQ, insertSorted,
      subV, ltEps, machineEps, List.filterMap_cons, List.filterMap_nil, id_eq,
      decide_eq_true_eq]
  · norm_num [medabsdev, nanMedianL, nanMeanL, npMedian, sortQ, insertSorted,
      subV, ltEps, machineEps, List.filterMap_cons, List.filterMap_nil, id_eq,
      decide_eq_true_eq]

/-! ### Frame-locator resolution (the shared `filenames`/`ext` logic) -/

/-- One fits extension: the header's `NAXIS` entry (if present) and the
data frame. -/
structure FitsHDU where
  naxisKey : Option ℕ
  data : Frame

/-- A fits file: its ordered list of extensions. -/
structure FitsFile where
  hdus : List FitsHDU

/-- The `filenames` argument: a bare string or a list of strings. -/
inductive FNames where
  | str : String → FNames
  | list : List String → FNames

/-- The extension indices of a file whose header has `NAXIS == 2`
(`[i for i in range(len(hdulist)) if 'NAXIS' in hdulist[i].header.keys()
and hdulist[i].header['NAXIS'] == 2]`), in ascending index order. -/
def twoDExtensions (file : FitsFile) : List ℕ :=
  (List.range file.hdus.length).filter
    (fun i =>
      match file.hdus.get? i with
      | some h => h.naxisKey == some 2
      | none => false)

/-- Single-file multi-extension resolution: one frame per qualifying
extension of the file; an empty qualifying list is the IndexError of
`ext0 = extlist[0]`. -/
def resolveSingle (fs : String → FitsFile) (name : String) :
    Option (List (String × ℕ)) :=
  let extlist := twoDExtensions (fs name)
  if extlist.isEmpty then none
  else some (extlist.map (fun e => (name, e)))

/-- The frame-locator resolution shared verbatim by `calc_mean_frame`,
`lm_mean_frame` and `calc_chopnod_frame` (source lines 80-111): a bare
string, or a list with exactly one element, switches to single-file
multi-extension mode (`sepfiles = 0`) and never reads `ext`; a longer
list contributes one frame per file at the given extension.  `none`
models the IndexError of `filenames[0]` on an empty list and the
failing `hdulist[None]` shape lookup when `ext` is `None` in
separate-files mode.  (The shape lookup of the given extension in the
first file is assumed to succeed; its failure mode is outside the
claims under study.) -/
def resolveFrames (fs : String → FitsFile) (filenames : FNames)
    (ext : Option ℕ) : Option (List (String × ℕ)) :=
  match filenames with
  | FNames.str name => resolveSingle fs name
  | FNames.list names =>
    if names.length = 1 then resolveSingle fs names.headI
    else
      match names with
      | [] => none
      | _ :: _ =>
        match ext with
        | none => none
        | some e => some (names.map (fun nm => (nm, e)))

/-- C10: calling the resolution with a one-element `filenames` list
behaves exactly as with the bare single string: it uses single-file
multi-extension mode, selecting every extension of that file whose
header records 2-dimensional data, in ascending extension order, and it
silently ignores whatever `ext` argument was supplied (both sides are
independent of their `ext` arguments). -/
theorem claim_C10 (fs : String → FitsFile) (f : String) (e1 e2 : Option ℕ) :
    resolveFrames fs (FNames.list [f]) e1 =
      resolveFrames fs (FNames.str f) e2 ∧
    resolveFrames fs (FNames.list [f]) e1 =
      (if (twoDExtensions (fs f)).isEmpty then none
       else some ((twoDExtensions (fs f)).map (fun e => (f, e)))) ∧
    List.Pairwise (fun a b => a < b) (twoDExtensions (fs f)) := by
  refine ⟨rfl, rfl, ?_⟩
  unfold twoDExtensions
  exact (List.pairwise_lt_range _).filter _
